import Mathlib

/-!
# Memberlist manager of the coordinator

A shallow embedding of `go/coordinator/internal/memberlist_manager`
(`memberlist_manager.go`, `memberlist_store.go`) together with the properties of
its reconciliation cycle.

Conventions of the embedding.

* A Go call either returns or panics: `Go α`.
* Every component that performs I/O is a record of state-passing functions over
  an explicit state type (`σ` for the platform, `κ` for the work queue).
* `map[string]interface{}` values are association lists over `Value`; indexing a
  missing key yields `Value.null` (Go's `nil` interface value).
-/

set_option autoImplicit false

namespace memberlist_manager

/-! ## Data model -/

/-- Go `error` values, identified by their message (`err.Error()`); a `nil` error
is `none` of `Option Error`. -/
abbrev Error := String

/-- Modelled from the spec: the `Status` enumeration of the node watcher, whose
declaration (`node_watcher.go`) is not among the sources. The spec lists the
health statuses as Ready, NotReady and Unknown/Absent. -/
inductive Status where
  | Ready
  | NotReady
  | Unknown
  deriving DecidableEq, Repr

/-- The Go type `Memberlist []string`. -/
abbrev Memberlist := List String

/-- Outcome of a Go call: a normal return or a panic carrying its message. -/
inductive Go (α : Type) where
  | ret (a : α)
  | panic (msg : String)
  deriving DecidableEq, Repr

/-- The Go interface `IMemberlistStore`, as state-passing functions over the state
`σ` of whatever backs the store. `GetMemberlist` returns the triple
`(return_memberlist *Memberlist, resourceVersion string, err error)`; the pointer
may be `nil` (`none`). -/
structure IMemberlistStore (σ : Type) where
  GetMemberlist : σ → Go (Option Memberlist × String × Option Error) × σ
  UpdateMemberlist : Memberlist → String → σ → Go (Option Error) × σ

/-! ## `MemberlistManager.reconcile` -/

/-- One iteration of the `for _, node := range *memberlist` loop of `reconcile`
(lines 82-92): the loop state is the pair `(exists, new_memberlist)`. -/
def reconcileStep (node_ip : String) (status : Status)
    (acc : Bool × Memberlist) (node : String) : Bool × Memberlist :=
  if node = node_ip then
    (true, if status = Status.Ready then acc.2 ++ [node] else acc.2)
  else
    (acc.1, acc.2 ++ [node])

/-- The value of `new_memberlist` that `reconcile` holds when it reaches its
`UpdateMemberlist` call (lines 80-95): the loop started from
`exists := false`, `new_memberlist := Memberlist{}`, followed by the final
conditional append. -/
def new_memberlist (memberlist : Memberlist) (node_ip : String) (status : Status) :
    Memberlist :=
  let r := memberlist.foldl (reconcileStep node_ip status) (false, [])
  if !r.1 && decide (status = Status.Ready) then r.2 ++ [node_ip] else r.2

/-- The method `MemberlistManager.reconcile` (lines 75-97). Of its receiver it
uses only the field `memberlistStore`, which is the first argument here.
Dereferencing a `nil` memberlist pointer panics, as in Go. -/
def reconcile {σ : Type} (memberlistStore : IMemberlistStore σ)
    (node_ip : String) (status : Status) (st : σ) : Go (Option Error) × σ :=
  match memberlistStore.GetMemberlist st with
  | (Go.panic msg, st1) => (Go.panic msg, st1)
  | (Go.ret (_, _, some err), st1) => (Go.ret (some err), st1)
  | (Go.ret (none, _, none), st1) =>
      (Go.panic "runtime error: invalid memory address or nil pointer dereference", st1)
  | (Go.ret (some memberlist, resourceVersion, none), st1) =>
      memberlistStore.UpdateMemberlist (new_memberlist memberlist node_ip status)
        resourceVersion st1

/-- The calls a store receives. -/
inductive StoreCall where
  | GetMemberlist
  | UpdateMemberlist (memberlist : Memberlist) (resourceVersion : String)
  deriving DecidableEq, Repr

/-- A store that behaves as `store` and appends every call it receives to a log
kept next to the state of `store`. -/
def recorded {σ : Type} (store : IMemberlistStore σ) :
    IMemberlistStore (σ × List StoreCall) where
  GetMemberlist := fun x =>
    ((store.GetMemberlist x.1).1,
      ((store.GetMemberlist x.1).2, x.2 ++ [StoreCall.GetMemberlist]))
  UpdateMemberlist := fun memberlist resourceVersion x =>
    ((store.UpdateMemberlist memberlist resourceVersion x.1).1,
      ((store.UpdateMemberlist memberlist resourceVersion x.1).2,
        x.2 ++ [StoreCall.UpdateMemberlist memberlist resourceVersion]))

/-- Successive reconciliation cycles for one identity, each cycle reading the
sequence the previous cycle wrote. -/
def reconcileCycles (memberlist : Memberlist) (node_ip : String)
    (statuses : List Status) : Memberlist :=
  statuses.foldl (fun l s => new_memberlist l node_ip s) memberlist

/-- An in-memory store used to exercise `reconcile`: the state is the stored
sequence with its version; a write is unconditional and changes the version. -/
def memoryStore : IMemberlistStore (Memberlist × String) where
  GetMemberlist := fun st => (Go.ret (some st.1, st.2, none), st)
  UpdateMemberlist := fun memberlist _ st => (Go.ret none, (memberlist, st.2 ++ "+"))

/-- A store every read of which fails with the error `msg`. -/
def unreachableStore (msg : Error) : IMemberlistStore Unit where
  GetMemberlist := fun st => (Go.ret (none, "", some msg), st)
  UpdateMemberlist := fun _ _ st => (Go.ret none, st)

/-! ## The custom resource: `memberlist_store.go` -/

/-- Go values of type `interface{}` as they occur in unstructured content. -/
inductive Value where
  | null
  | bool (b : Bool)
  | num (n : Int)
  | str (s : String)
  | slice (xs : List Value)
  | map (kvs : List (String × Value))

/-- Indexing `m[k]` of a `map[string]interface{}`: the `nil` interface value when
the key is absent. -/
def index (m : List (String × Value)) (k : String) : Value :=
  (m.lookup k).getD Value.null

/-- The type `unstructured.Unstructured` of the platform client library: a wrapper
of the field `Object map[string]interface{}`. -/
structure Unstructured where
  Object : List (String × Value)

/-- The library method `UnstructuredContent()`. -/
def Unstructured.UnstructuredContent (u : Unstructured) : List (String × Value) :=
  u.Object

/-- The library method `GetResourceVersion()`: the string at
`metadata.resourceVersion`, and the empty string when there is none. -/
def Unstructured.GetResourceVersion (u : Unstructured) : String :=
  match index u.Object "metadata" with
  | Value.map metadata =>
    match index metadata "resourceVersion" with
    | Value.str v => v
    | _ => ""
  | _ => ""

/-- The library type `schema.GroupVersionResource`. -/
structure GroupVersionResource where
  Group : String
  Version : String
  Resource : String
  deriving DecidableEq, Repr

/-- The part of `dynamic.Interface` the store uses, over the platform state `σ`:
`Resource(gvr).Namespace(ns).Get(ctx, name, opts)` and
`Resource(gvr).Namespace(ns).Update(ctx, obj, opts)`, each returning
`(*Unstructured, error)`. -/
structure DynamicClient (σ : Type) where
  Get : GroupVersionResource → String → String → σ → Except Error Unstructured × σ
  Update : GroupVersionResource → String → Unstructured → σ → Except Error Unstructured × σ

/-- The struct `CRMemberlistStore`. -/
structure CRMemberlistStore (σ : Type) where
  dynamicClient : DynamicClient σ
  coordinatorNamespace : String
  memberlistCustomResource : String

/-- The function `NewCRMemberlistStore`. -/
def NewCRMemberlistStore {σ : Type} (dynamicClient : DynamicClient σ)
    (coordinatorNamespace : String) (memberlistCustomResource : String) :
    CRMemberlistStore σ :=
  { dynamicClient := dynamicClient
    coordinatorNamespace := coordinatorNamespace
    memberlistCustomResource := memberlistCustomResource }

/-- The function `getGvr`. -/
def getGvr : GroupVersionResource :=
  { Group := "chroma.cluster", Version := "v1", Resource := "memberlists" }

/-- The name Go prints for the dynamic type of an `interface{}` value. -/
def typeName : Value → String
  | Value.null => "nil"
  | Value.bool _ => "bool"
  | Value.num _ => "int64"
  | Value.str _ => "string"
  | Value.slice _ => "[]interface \x7b\x7d"
  | Value.map _ => "map[string]interface \x7b\x7d"

/-- The message of the run-time panic of a failed type assertion `v.(target)` on
an `interface{}` value `v`. -/
def conversionPanic (v : Value) (target : String) : String :=
  "interface conversion: interface \x7b\x7d is " ++ typeName v ++ ", not " ++ target

/-- The loop `for _, member := range cast_members` of `GetMemberlist` (lines
47-50), started from the memberlist built so far. Each type assertion panics when
it fails. -/
def castMembers : List Value → Memberlist → Go Memberlist
  | [], memberlist => Go.ret memberlist
  | member :: rest, memberlist =>
    match member with
    | Value.map member_map =>
      match index member_map "url" with
      | Value.str url => castMembers rest (memberlist ++ [url])
      | v => Go.panic (conversionPanic v "string")
    | v => Go.panic (conversionPanic v "map[string]interface \x7b\x7d")

/-- The decoding that `GetMemberlist` applies to the resource it has read (lines
39-51). -/
def decodeMemberlist (unstrucuted : Unstructured) :
    Go (Option Memberlist × String × Option Error) :=
  let cr := unstrucuted.UnstructuredContent
  match index cr "spec" with
  | Value.map spec =>
    match index spec "members" with
    | Value.null => Go.ret (some [], unstrucuted.GetResourceVersion, none)
    | Value.slice cast_members =>
      match castMembers cast_members [] with
      | Go.ret memberlist => Go.ret (some memberlist, unstrucuted.GetResourceVersion, none)
      | Go.panic msg => Go.panic msg
    | v => Go.panic (conversionPanic v "[]interface \x7b\x7d")
  | v => Go.panic (conversionPanic v "map[string]interface \x7b\x7d")

/-- The method `CRMemberlistStore.GetMemberlist` (lines 33-52): a failed read of
the resource is answered by `panic(err.Error())`. -/
def CRMemberlistStore.GetMemberlist {σ : Type} (s : CRMemberlistStore σ) (st : σ) :
    Go (Option Memberlist × String × Option Error) × σ :=
  match s.dynamicClient.Get getGvr "chroma" "worker-memberlist" st with
  | (Except.error err, st1) => (Go.panic err, st1)
  | (Except.ok unstrucuted, st1) => (decodeMemberlist unstrucuted, st1)

/-- The function `memberlistToCr` (lines 69-93). -/
def memberlistToCr (memberlist : Memberlist) (resourceVersion : String) : Unstructured :=
  let members : List Value :=
    memberlist.foldl (fun members member => members ++ [Value.map [("url", Value.str member)]]) []
  { Object :=
      [ ("apiVersion", Value.str "chroma.cluster/v1"),
        ("kind", Value.str "MemberList"),
        ("metadata", Value.map
          [ ("name", Value.str "worker-memberlist"),
            ("namespace", Value.str "chroma"),
            ("resourceVersion", Value.str resourceVersion) ]),
        ("spec", Value.map [ ("members", Value.slice members) ]) ] }

/-- The method `CRMemberlistStore.UpdateMemberlist` (lines 54-62). -/
def CRMemberlistStore.UpdateMemberlist {σ : Type} (s : CRMemberlistStore σ)
    (memberlist : Memberlist) (resourceVersion : String) (st : σ) :
    Go (Option Error) × σ :=
  match s.dynamicClient.Update getGvr "chroma" (memberlistToCr memberlist resourceVersion) st with
  | (Except.error err, st1) => (Go.ret (some err), st1)
  | (Except.ok _, st1) => (Go.ret none, st1)

/-- The struct `CRMemberlistStore` seen through the interface `IMemberlistStore`. -/
def CRMemberlistStore.toStore {σ : Type} (s : CRMemberlistStore σ) : IMemberlistStore σ where
  GetMemberlist := s.GetMemberlist
  UpdateMemberlist := s.UpdateMemberlist

/-! ## A platform with optimistic concurrency, and a second writer -/

/-- The state of a platform that holds the one membership resource: the value at
`spec.members` and the current version. -/
structure Platform where
  members : Value
  resourceVersion : String

/-- The resource a platform state holds. -/
def Platform.object (p : Platform) : Unstructured :=
  { Object :=
      [ ("apiVersion", Value.str "chroma.cluster/v1"),
        ("kind", Value.str "MemberList"),
        ("metadata", Value.map
          [ ("name", Value.str "worker-memberlist"),
            ("namespace", Value.str "chroma"),
            ("resourceVersion", Value.str p.resourceVersion) ]),
        ("spec", Value.map [ ("members", p.members) ]) ] }

/-- The value at `spec.members` of a submitted resource. -/
def specMembers (obj : Unstructured) : Value :=
  match index obj.Object "spec" with
  | Value.map spec => index spec "members"
  | _ => Value.null

/-- Modelled from the spec: the platform client with the optimistic-concurrency
contract of section 4.2 (the platform itself is outside the repository). A write
is accepted only if the version it submits is the current one, and then changes
the version; otherwise it fails with a conflict and changes nothing. -/
def platformClient : DynamicClient Platform where
  Get := fun _ _ _ p => (Except.ok p.object, p)
  Update := fun _ _ obj p =>
    if obj.GetResourceVersion = p.resourceVersion then
      (Except.ok ({ members := specMembers obj,
                    resourceVersion := p.resourceVersion ++ "+" } : Platform).object,
        { members := specMembers obj, resourceVersion := p.resourceVersion ++ "+" })
    else
      (Except.error "Conflict: the object has been modified", p)

/-- A client behaving as `c`, through which the action `other` of a second writer
takes place right after each read has been answered, hence between a read of
`reconcile` and the write that follows it. -/
def interleaved {σ : Type} (c : DynamicClient σ) (other : σ → σ) : DynamicClient σ where
  Get := fun gvr ns name st => ((c.Get gvr ns name st).1, other (c.Get gvr ns name st).2)
  Update := c.Update

/-- A second writer that replaces the membership by `memberlist`, through the same
client and with the version it finds. -/
def otherWriter (memberlist : Memberlist) (p : Platform) : Platform :=
  (platformClient.Update getGvr "chroma" (memberlistToCr memberlist p.resourceVersion) p).2

/-- A client every read of which fails with the error `msg`. -/
def failingClient (msg : Error) : DynamicClient Unit where
  Get := fun _ _ _ st => (Except.error msg, st)
  Update := fun _ _ _ st => (Except.error msg, st)

/-! ## The worker loop: `MemberlistManager.run` -/

/-- The part of the interface `IWatcher` the worker uses:
`GetStatus(node_ip string) (Status, error)`. -/
structure IWatcher (σ : Type) where
  GetStatus : String → σ → Go (Status × Option Error) × σ

/-- The part of `workqueue.RateLimitingInterface` the worker uses, over the queue
state `κ`: `Get() (item, shutdown)` and `Done(item)`. Items are the strings the
watcher callback adds. -/
structure RateLimitingInterface (κ : Type) where
  Get : κ → (String × Bool) × κ
  Done : String → κ → κ

/-- The struct `MemberlistManager`. -/
structure MemberlistManager (κ σ : Type) where
  workqueue : RateLimitingInterface κ
  nodeWatcher : IWatcher σ
  memberlistStore : IMemberlistStore σ

/-- The method `MemberlistManager.run` (lines 54-73). The `for` loop is unrolled
at most `fuel` times; `none` means the loop is still running once the fuel is
spent. A panic of a callee ends the worker. -/
def MemberlistManager.run {κ σ : Type} (m : MemberlistManager κ σ) :
    Nat → κ × σ → Option (Go Unit × (κ × σ))
  | 0, _ => none
  | fuel + 1, (q, st) =>
    match m.workqueue.Get q with
    | ((_, true), q1) => some (Go.ret (), (q1, st))
    | ((key, false), q1) =>
      match m.nodeWatcher.GetStatus key st with
      | (Go.panic msg, st1) => some (Go.panic msg, (q1, st1))
      | (Go.ret (_, some _), st1) => m.run fuel (m.workqueue.Done key q1, st1)
      | (Go.ret (nodeUpdate, none), st1) =>
        match reconcile m.memberlistStore key nodeUpdate st1 with
        | (Go.panic msg, st2) => some (Go.panic msg, (q1, st2))
        | (Go.ret _, st2) => m.run fuel (m.workqueue.Done key q1, st2)

/-- The state of a queue that hands out the items of `pending` in order and then
reports shutdown; `done` lists the items marked done, oldest first. -/
structure Script where
  pending : List String
  done : List String
  deriving DecidableEq, Repr

/-- The queue over `Script`. -/
def scriptedQueue : RateLimitingInterface Script where
  Get := fun q =>
    match q.pending with
    | [] => (("", true), q)
    | key :: rest => ((key, false), { pending := rest, done := q.done })
  Done := fun key q => { pending := q.pending, done := q.done ++ [key] }

/-- The platform state one worker cycle for `key` leaves behind: the status
query, followed by `reconcile` when the query returned no error. -/
def cycle {σ : Type} (nodeWatcher : IWatcher σ) (memberlistStore : IMemberlistStore σ)
    (st : σ) (key : String) : σ :=
  match nodeWatcher.GetStatus key st with
  | (Go.ret (nodeUpdate, none), st1) => (reconcile memberlistStore key nodeUpdate st1).2
  | (_, st1) => st1

/-- Whether the calls of one worker cycle for `key` return rather than panic: the
status query returns, and when it returns no error, `reconcile` returns, a nil
error or an error. -/
def cycleReturns {σ : Type} (nodeWatcher : IWatcher σ)
    (memberlistStore : IMemberlistStore σ) (st : σ) (key : String) : Bool :=
  match nodeWatcher.GetStatus key st with
  | (Go.ret (_, some _), _) => true
  | (Go.ret (nodeUpdate, none), st1) =>
    match reconcile memberlistStore key nodeUpdate st1 with
    | (Go.ret _, _) => true
    | (Go.panic _, _) => false
  | (Go.panic _, _) => false

/-- Whether the calls of every cycle return when the worker processes `keys` in
turn from the platform state `st`. -/
def cyclesReturn {σ : Type} (nodeWatcher : IWatcher σ)
    (memberlistStore : IMemberlistStore σ) : List String → σ → Bool
  | [], _ => true
  | key :: rest, st =>
    cycleReturns nodeWatcher memberlistStore st key &&
      cyclesReturn nodeWatcher memberlistStore rest (cycle nodeWatcher memberlistStore st key)

/-- A watcher that reports every node as `status`. -/
def constantWatcher {σ : Type} (status : Status) : IWatcher σ where
  GetStatus := fun _ st => (Go.ret (status, none), st)

/-! ## Lemmas on the reconciliation scan -/

theorem foldl_reconcileStep (node_ip : String) (status : Status) (l : Memberlist) :
    ∀ (b : Bool) (acc : Memberlist),
      l.foldl (reconcileStep node_ip status) (b, acc) =
        (b || decide (node_ip ∈ l),
          acc ++ l.filter (fun n => decide (status = Status.Ready) || decide (n ≠ node_ip))) := by
  induction l with
  | nil => intro b acc; simp
  | cons x xs ih =>
    intro b acc
    rw [List.foldl_cons]
    by_cases hx : x = node_ip
    · subst hx
      by_cases hs : status = Status.Ready
      · subst hs
        simp [reconcileStep, ih]
      · simp [reconcileStep, ih, hs]
    · have hx2 : ¬ node_ip = x := fun h => hx h.symm
      simp [reconcileStep, ih, hx, hx2]

theorem new_memberlist_ready_mem (l : Memberlist) (node_ip : String)
    (h : node_ip ∈ l) : new_memberlist l node_ip Status.Ready = l := by
  simp [new_memberlist, foldl_reconcileStep, h]

theorem new_memberlist_ready_not_mem (l : Memberlist) (node_ip : String)
    (h : node_ip ∉ l) : new_memberlist l node_ip Status.Ready = l ++ [node_ip] := by
  simp [new_memberlist, foldl_reconcileStep, h]

theorem new_memberlist_not_ready (l : Memberlist) (node_ip : String) (status : Status)
    (h : status ≠ Status.Ready) :
    new_memberlist l node_ip status = l.filter (fun n => decide (n ≠ node_ip)) := by
  simp [new_memberlist, foldl_reconcileStep, h]

theorem reconcile_of_get {σ : Type} (store : IMemberlistStore σ) (node_ip : String)
    (status : Status) (st st1 : σ) (l : Memberlist) (v : String)
    (hget : store.GetMemberlist st = (Go.ret (some l, v, none), st1)) :
    reconcile store node_ip status st =
      store.UpdateMemberlist (new_memberlist l node_ip status) v st1 := by
  simp [reconcile, hget]

theorem reconcile_recorded_of_get {σ : Type} (store : IMemberlistStore σ)
    (node_ip : String) (status : Status) (st st1 : σ) (log : List StoreCall)
    (l : Memberlist) (v : String)
    (hget : store.GetMemberlist st = (Go.ret (some l, v, none), st1)) :
    (reconcile (recorded store) node_ip status (st, log)).2.2 =
      log ++ [StoreCall.GetMemberlist,
        StoreCall.UpdateMemberlist (new_memberlist l node_ip status) v] := by
  simp [reconcile, recorded, hget]

theorem mem_new_memberlist_iff (l : Memberlist) (node_ip : String) (status : Status) :
    node_ip ∈ new_memberlist l node_ip status ↔ status = Status.Ready := by
  by_cases hs : status = Status.Ready
  · subst hs
    by_cases hm : node_ip ∈ l
    · simp [new_memberlist_ready_mem l node_ip hm, hm]
    · simp [new_memberlist_ready_not_mem l node_ip hm]
  · simp [new_memberlist_not_ready l node_ip status hs, hs]

theorem new_memberlist_idem (l : Memberlist) (node_ip : String) (status : Status) :
    new_memberlist (new_memberlist l node_ip status) node_ip status =
      new_memberlist l node_ip status := by
  by_cases hs : status = Status.Ready
  · subst hs
    exact new_memberlist_ready_mem _ _ ((mem_new_memberlist_iff l node_ip Status.Ready).2 rfl)
  · rw [new_memberlist_not_ready _ node_ip status hs, new_memberlist_not_ready l node_ip status hs,
      List.filter_filter]
    simp

theorem filter_new_memberlist (l : Memberlist) (node_ip : String) (status : Status) :
    (new_memberlist l node_ip status).filter (fun n => decide (n ≠ node_ip)) =
      l.filter (fun n => decide (n ≠ node_ip)) := by
  by_cases hs : status = Status.Ready
  · subst hs
    by_cases hm : node_ip ∈ l
    · rw [new_memberlist_ready_mem l node_ip hm]
    · rw [new_memberlist_ready_not_mem l node_ip hm]
      simp
  · rw [new_memberlist_not_ready l node_ip status hs, List.filter_filter]
    simp

theorem count_new_memberlist_ready (l : Memberlist) (node_ip : String) :
    (new_memberlist l node_ip Status.Ready).count node_ip = max 1 (l.count node_ip) := by
  by_cases hm : node_ip ∈ l
  · rw [new_memberlist_ready_mem l node_ip hm]
    have := List.count_pos_iff.2 hm
    omega
  · rw [new_memberlist_ready_not_mem l node_ip hm]
    simp [List.count_eq_zero_of_not_mem hm]

theorem count_new_memberlist_not_ready (l : Memberlist) (node_ip : String)
    (status : Status) (hs : status ≠ Status.Ready) :
    (new_memberlist l node_ip status).count node_ip = 0 := by
  apply List.count_eq_zero_of_not_mem
  rw [mem_new_memberlist_iff]
  exact hs

theorem count_reconcileCycles_le_one (node_ip : String) (statuses : List Status) :
    ∀ l : Memberlist, l.count node_ip ≤ 1 →
      (reconcileCycles l node_ip statuses).count node_ip ≤ 1 := by
  induction statuses with
  | nil => intro l h; simpa [reconcileCycles] using h
  | cons s ss ih =>
    intro l h
    have hstep : (new_memberlist l node_ip s).count node_ip ≤ 1 := by
      by_cases hs : s = Status.Ready
      · subst hs
        rw [count_new_memberlist_ready]
        omega
      · rw [count_new_memberlist_not_ready l node_ip s hs]
        omega
    simpa [reconcileCycles] using ih _ hstep

theorem count_reconcileCycles_iff (node_ip : String) (statuses : List Status) :
    ∀ l : Memberlist,
      ((reconcileCycles l node_ip statuses).count node_ip ≤ 1 ↔
        (l.count node_ip ≤ 1 ∨ ∃ s ∈ statuses, s ≠ Status.Ready)) := by
  induction statuses with
  | nil => intro l; simp [reconcileCycles]
  | cons s ss ih =>
    intro l
    have hunf : reconcileCycles l node_ip (s :: ss) =
        reconcileCycles (new_memberlist l node_ip s) node_ip ss := by
      simp [reconcileCycles]
    rw [hunf, ih]
    by_cases hs : s = Status.Ready
    · subst hs
      rw [count_new_memberlist_ready]
      simp only [List.mem_cons, exists_eq_or_imp, ne_eq, not_true_eq_false, false_or]
      constructor
      · rintro (h | h)
        · left; omega
        · right; exact h
      · rintro (h | h)
        · left; omega
        · right; exact h
    · rw [count_new_memberlist_not_ready l node_ip s hs]
      simp only [List.mem_cons, exists_eq_or_imp, ne_eq]
      constructor
      · intro _; right; left; exact hs
      · intro _; left; omega

theorem memberlistToCr_members (l : Memberlist) :
    ∀ acc : List Value,
      l.foldl (fun members member => members ++ [Value.map [("url", Value.str member)]]) acc =
        acc ++ l.map (fun member => Value.map [("url", Value.str member)]) := by
  induction l with
  | nil => intro acc; simp
  | cons x xs ih => intro acc; simp [ih]

theorem castMembers_map (l : Memberlist) :
    ∀ acc : Memberlist,
      castMembers (l.map (fun member => Value.map [("url", Value.str member)])) acc =
        Go.ret (acc ++ l) := by
  induction l with
  | nil => intro acc; simp [castMembers]
  | cons x xs ih =>
    intro acc
    simp [castMembers, index, List.lookup, ih]

theorem getResourceVersion_memberlistToCr (l : Memberlist) (v : String) :
    (memberlistToCr l v).GetResourceVersion = v := by
  simp [memberlistToCr, Unstructured.GetResourceVersion, index, List.lookup]

theorem decodeMemberlist_memberlistToCr (l : Memberlist) (v : String) :
    decodeMemberlist (memberlistToCr l v) = Go.ret (some l, v, none) := by
  have hv := getResourceVersion_memberlistToCr l v
  have hm := memberlistToCr_members l []
  have hc := castMembers_map l []
  simp only [List.nil_append] at hm hc
  simp [decodeMemberlist, Unstructured.UnstructuredContent, hv]
  simp [memberlistToCr, index, List.lookup, hm, hc]

theorem run_step_shutdown {κ σ : Type} (m : MemberlistManager κ σ) (fuel : Nat)
    (q q1 : κ) (st : σ) (key : String) (hq : m.workqueue.Get q = ((key, true), q1)) :
    m.run (fuel + 1) (q, st) = some (Go.ret (), (q1, st)) := by
  simp [MemberlistManager.run, hq]

theorem run_step_status_error {κ σ : Type} (m : MemberlistManager κ σ) (fuel : Nat)
    (q q1 : κ) (st st1 : σ) (key : String) (status : Status) (err : Error)
    (hq : m.workqueue.Get q = ((key, false), q1))
    (hs : m.nodeWatcher.GetStatus key st = (Go.ret (status, some err), st1)) :
    m.run (fuel + 1) (q, st) = m.run fuel (m.workqueue.Done key q1, st1) := by
  simp [MemberlistManager.run, hq, hs]

theorem run_step_reconciled {κ σ : Type} (m : MemberlistManager κ σ) (fuel : Nat)
    (q q1 : κ) (st st1 st2 : σ) (key : String) (status : Status) (r : Option Error)
    (hq : m.workqueue.Get q = ((key, false), q1))
    (hs : m.nodeWatcher.GetStatus key st = (Go.ret (status, none), st1))
    (hr : reconcile m.memberlistStore key status st1 = (Go.ret r, st2)) :
    m.run (fuel + 1) (q, st) = m.run fuel (m.workqueue.Done key q1, st2) := by
  simp [MemberlistManager.run, hq, hs, hr]

theorem run_step_item {κ σ : Type} (m : MemberlistManager κ σ)
    (fuel : Nat) (q q1 : κ) (st : σ) (key : String)
    (hq : m.workqueue.Get q = ((key, false), q1))
    (hc : cycleReturns m.nodeWatcher m.memberlistStore st key = true) :
    m.run (fuel + 1) (q, st) =
      m.run fuel (m.workqueue.Done key q1, cycle m.nodeWatcher m.memberlistStore st key) := by
  rcases hg : m.nodeWatcher.GetStatus key st with ⟨g, st1⟩
  cases g with
  | panic msg => simp [cycleReturns, hg] at hc
  | ret t =>
    obtain ⟨nodeUpdate, err⟩ := t
    cases err with
    | some e => simp [MemberlistManager.run, hq, hg, cycle]
    | none =>
      rcases hrec : reconcile m.memberlistStore key nodeUpdate st1 with ⟨r, st2⟩
      cases r with
      | panic msg => simp [cycleReturns, hg, hrec] at hc
      | ret e => simp [MemberlistManager.run, hq, hg, cycle, hrec]

theorem run_ret_only_at_shutdown {κ σ : Type} (m : MemberlistManager κ σ) (fuel : Nat) :
    ∀ (q q2 : κ) (st st2 : σ), m.run fuel (q, st) = some (Go.ret (), (q2, st2)) →
      ∃ q0 key, m.workqueue.Get q0 = ((key, true), q2) := by
  induction fuel with
  | zero => intro q q2 st st2 h; simp [MemberlistManager.run] at h
  | succ n ih =>
    intro q q2 st st2 h
    rcases hq : m.workqueue.Get q with ⟨⟨key, shutdown⟩, q1⟩
    cases shutdown with
    | true =>
      simp [MemberlistManager.run, hq] at h
      exact ⟨q, key, by rw [hq, h.1]⟩
    | false =>
      rcases hg : m.nodeWatcher.GetStatus key st with ⟨g, st1⟩
      cases g with
      | panic msg => simp [MemberlistManager.run, hq, hg] at h
      | ret t =>
        obtain ⟨nodeUpdate, err⟩ := t
        cases err with
        | some e =>
          simp only [MemberlistManager.run, hq, hg] at h
          exact ih _ _ _ _ h
        | none =>
          rcases hrec : reconcile m.memberlistStore key nodeUpdate st1 with ⟨r, st3⟩
          cases r with
          | panic msg => simp [MemberlistManager.run, hq, hg, hrec] at h
          | ret e =>
            simp only [MemberlistManager.run, hq, hg, hrec] at h
            exact ih _ _ _ _ h

theorem run_scripted_running {σ : Type} (nodeWatcher : IWatcher σ)
    (memberlistStore : IMemberlistStore σ) (keys : List String) :
    ∀ (done : List String) (st : σ) (fuel : Nat),
      cyclesReturn nodeWatcher memberlistStore keys st = true → fuel ≤ keys.length →
      MemberlistManager.run
          { workqueue := scriptedQueue, nodeWatcher := nodeWatcher,
            memberlistStore := memberlistStore }
          fuel ({ pending := keys, done := done }, st) = none := by
  induction keys with
  | nil =>
    intro done st fuel _ hf
    have : fuel = 0 := by simpa using hf
    subst this
    rfl
  | cons k ks ih =>
    intro done st fuel hc hf
    cases fuel with
    | zero => rfl
    | succ n =>
      simp only [cyclesReturn, Bool.and_eq_true] at hc
      rw [run_step_item _ n _ { pending := ks, done := done } st k rfl hc.1]
      exact ih _ _ n hc.2 (by simpa using hf)

theorem run_scripted_ends {σ : Type} (nodeWatcher : IWatcher σ)
    (memberlistStore : IMemberlistStore σ) (keys : List String) :
    ∀ (done : List String) (st : σ) (fuel : Nat),
      cyclesReturn nodeWatcher memberlistStore keys st = true → keys.length < fuel →
      MemberlistManager.run
          { workqueue := scriptedQueue, nodeWatcher := nodeWatcher,
            memberlistStore := memberlistStore }
          fuel ({ pending := keys, done := done }, st) =
        some (Go.ret (), ({ pending := [], done := done ++ keys },
          keys.foldl (cycle nodeWatcher memberlistStore) st)) := by
  induction keys with
  | nil =>
    intro done st fuel _ hf
    cases fuel with
    | zero => simp at hf
    | succ n =>
      rw [run_step_shutdown _ n _ { pending := [], done := done } st "" rfl]
      simp
  | cons k ks ih =>
    intro done st fuel hc hf
    cases fuel with
    | zero => simp at hf
    | succ n =>
      simp only [cyclesReturn, Bool.and_eq_true] at hc
      rw [run_step_item _ n _ { pending := ks, done := done } st k rfl hc.1]
      have h := ih (done ++ [k]) (cycle nodeWatcher memberlistStore st k) n hc.2
        (by simpa using hf)
      simpa [scriptedQueue] using h

theorem platformClient_conditional (obj : Unstructured) (p : Platform)
    (h : obj.GetResourceVersion ≠ p.resourceVersion) :
    ∃ e, platformClient.Update getGvr "chroma" obj p = (Except.error e, p) :=
  ⟨"Conflict: the object has been modified", by simp [platformClient, h]⟩

/-! ## The reconciliation cycle -/

/-- C1: when `GetMemberlist` returns the sequence `l` with the version `v`,
`reconcile` makes exactly one `UpdateMemberlist` call after the read, and the
sequence it passes is `l` itself when the status is Ready and the identity occurs
in `l`, `l` with the identity appended at the end when the status is Ready and the
identity does not occur in `l`, and `l` with every entry equal to the identity
removed when the status is not Ready, which is `l` itself when the identity does
not occur in `l`. -/
theorem reconcile_written_sequence {σ : Type} (store : IMemberlistStore σ)
    (node_ip : String) (status : Status) (st st1 : σ) (log : List StoreCall)
    (l : Memberlist) (v : String)
    (hget : store.GetMemberlist st = (Go.ret (some l, v, none), st1)) :
    (reconcile (recorded store) node_ip status (st, log)).2.2 =
        log ++ [StoreCall.GetMemberlist,
          StoreCall.UpdateMemberlist
            (if status = Status.Ready then (if node_ip ∈ l then l else l ++ [node_ip])
             else l.filter (fun n => decide (n ≠ node_ip))) v] ∧
      reconcile store node_ip status st =
        store.UpdateMemberlist
          (if status = Status.Ready then (if node_ip ∈ l then l else l ++ [node_ip])
           else l.filter (fun n => decide (n ≠ node_ip))) v st1 ∧
      (node_ip ∉ l → l.filter (fun n => decide (n ≠ node_ip)) = l) := by
  have hnew : new_memberlist l node_ip status =
      (if status = Status.Ready then (if node_ip ∈ l then l else l ++ [node_ip])
       else l.filter (fun n => decide (n ≠ node_ip))) := by
    by_cases hs : status = Status.Ready
    · subst hs
      by_cases hm : node_ip ∈ l
      · simp [new_memberlist_ready_mem l node_ip hm, hm]
      · simp [new_memberlist_ready_not_mem l node_ip hm, hm]
    · simp [new_memberlist_not_ready l node_ip status hs, hs]
  refine ⟨?_, ?_, ?_⟩
  · rw [reconcile_recorded_of_get store node_ip status st st1 log l v hget, hnew]
  · rw [reconcile_of_get store node_ip status st st1 l v hget, hnew]
  · intro hm
    rw [List.filter_eq_self]
    intro a ha
    have : a ≠ node_ip := fun h => hm (h ▸ ha)
    simpa using this

/-- Scenario 1 of the specification for C1: on the empty membership, reconciling
`10.0.0.1` as Ready writes `[10.0.0.1]`. -/
theorem reconcile_written_sequence_witness :
    memoryStore.GetMemberlist ([], "1") = (Go.ret (some [], "1", none), ([], "1")) ∧
      (reconcile (recorded memoryStore) "10.0.0.1" Status.Ready (([], "1"), [])).2.2 =
        [StoreCall.GetMemberlist, StoreCall.UpdateMemberlist ["10.0.0.1"] "1"] :=
  ⟨rfl, by
    simpa using
      (reconcile_written_sequence memoryStore "10.0.0.1" Status.Ready ([], "1") ([], "1") []
        [] "1" rfl).1⟩

/-- C2: whenever `reconcile` completes successfully (returns a nil error), it has
made one read and one write, and the membership sequence it wrote contains the
reconciled identity if and only if the status is Ready. -/
theorem reconcile_success_contains_iff_ready {σ : Type} (store : IMemberlistStore σ)
    (node_ip : String) (status : Status) (st st2 : σ) (log log2 : List StoreCall)
    (hok : reconcile (recorded store) node_ip status (st, log) = (Go.ret none, (st2, log2))) :
    ∃ (written : Memberlist) (v : String),
      log2 = log ++ [StoreCall.GetMemberlist, StoreCall.UpdateMemberlist written v] ∧
        (node_ip ∈ written ↔ status = Status.Ready) := by
  rcases hg : store.GetMemberlist st with ⟨r, st1⟩
  cases r with
  | panic msg => simp [reconcile, recorded, hg] at hok
  | ret t =>
    obtain ⟨ml, v, err⟩ := t
    cases err with
    | some e => simp [reconcile, recorded, hg] at hok
    | none =>
      cases ml with
      | none => simp [reconcile, recorded, hg] at hok
      | some l =>
        refine ⟨new_memberlist l node_ip status, v, ?_, mem_new_memberlist_iff l node_ip status⟩
        have h := reconcile_recorded_of_get store node_ip status st st1 log l v hg
        rw [hok] at h
        exact h

/-- Scenario 2 of the specification for C2: on `[10.0.0.1, 10.0.0.2]`,
reconciling `10.0.0.1` as NotReady succeeds and writes a sequence without it. -/
theorem reconcile_success_contains_iff_ready_witness :
    reconcile (recorded memoryStore) "10.0.0.1" Status.NotReady
        ((["10.0.0.1", "10.0.0.2"], "1"), []) =
      (Go.ret none, ((["10.0.0.2"], "1+"),
        [StoreCall.GetMemberlist, StoreCall.UpdateMemberlist ["10.0.0.2"] "1"])) ∧
    ∃ (written : Memberlist) (v : String),
      [StoreCall.GetMemberlist, StoreCall.UpdateMemberlist ["10.0.0.2"] "1"] =
          [] ++ [StoreCall.GetMemberlist, StoreCall.UpdateMemberlist written v] ∧
        ("10.0.0.1" ∈ written ↔ Status.NotReady = Status.Ready) :=
  ⟨by decide,
    reconcile_success_contains_iff_ready memoryStore "10.0.0.1" Status.NotReady
      (["10.0.0.1", "10.0.0.2"], "1") (["10.0.0.2"], "1+") []
      [StoreCall.GetMemberlist, StoreCall.UpdateMemberlist ["10.0.0.2"] "1"] (by decide)⟩

/-- C3: reconciliation is idempotent. Reconciling an identity with a status on the
result of reconciling it with the same status yields the same sequence, entry for
entry; so two consecutive `reconcile` calls on a store that returns what was last
written leave the sequence the first call wrote. -/
theorem reconcile_idempotent (l : Memberlist) (node_ip : String) (status : Status)
    (v : String) :
    new_memberlist (new_memberlist l node_ip status) node_ip status =
        new_memberlist l node_ip status ∧
      (reconcile memoryStore node_ip status
          (reconcile memoryStore node_ip status (l, v)).2).2.1 =
        (reconcile memoryStore node_ip status (l, v)).2.1 := by
  refine ⟨new_memberlist_idem l node_ip status, ?_⟩
  simp [reconcile, memoryStore, new_memberlist_idem]

/-- C4: reconciling the identity `x` neither reorders, adds nor drops entries
other than `x`. The entries different from `x` of the sequence `reconcile` writes
are those of the sequence it read, in the same order and with the same
multiplicities. -/
theorem reconcile_preserves_unrelated {σ : Type} (store : IMemberlistStore σ)
    (x : String) (status : Status) (st st1 : σ) (log : List StoreCall)
    (l : Memberlist) (v : String)
    (hget : store.GetMemberlist st = (Go.ret (some l, v, none), st1)) :
    ∃ written : Memberlist,
      (reconcile (recorded store) x status (st, log)).2.2 =
          log ++ [StoreCall.GetMemberlist, StoreCall.UpdateMemberlist written v] ∧
        written.filter (fun n => decide (n ≠ x)) = l.filter (fun n => decide (n ≠ x)) :=
  ⟨new_memberlist l x status,
    reconcile_recorded_of_get store x status st st1 log l v hget,
    filter_new_memberlist l x status⟩

/-- An instance of C4: with `[a, x, b, x, c]` read, reconciling `x` as Unknown
writes a sequence whose entries other than `x` are `[a, b, c]`. -/
theorem reconcile_preserves_unrelated_witness :
    ∃ written : Memberlist,
      (reconcile (recorded memoryStore) "x" Status.Unknown
          ((["a", "x", "b", "x", "c"], "7"), [])).2.2 =
          [] ++ [StoreCall.GetMemberlist, StoreCall.UpdateMemberlist written "7"] ∧
        written.filter (fun n => decide (n ≠ "x")) =
          (["a", "x", "b", "x", "c"] : Memberlist).filter (fun n => decide (n ≠ "x")) :=
  reconcile_preserves_unrelated memoryStore "x" Status.Unknown
    (["a", "x", "b", "x", "c"], "7") (["a", "x", "b", "x", "c"], "7") []
    ["a", "x", "b", "x", "c"] "7" rfl

/-- C5 as stated fails: starting from a sequence that holds the identity twice,
one Ready cycle leaves both entries. -/
theorem non_duplication_counterexample :
    ([Status.Ready] : List Status) ≠ [] ∧
      reconcileCycles ["10.0.0.1", "10.0.0.1"] "10.0.0.1" [Status.Ready] =
        ["10.0.0.1", "10.0.0.1"] ∧
      ¬ (reconcileCycles ["10.0.0.1", "10.0.0.1"] "10.0.0.1" [Status.Ready]).count
          "10.0.0.1" ≤ 1 := by
  decide

/-- C5, amended: after any sequence of statuses reconciled one after another for
an identity, the final membership sequence contains at most one entry equal to the
identity if and only if the starting sequence contained at most one such entry or
at least one of the statuses was not Ready. -/
theorem non_duplication (l : Memberlist) (node_ip : String) (statuses : List Status) :
    (reconcileCycles l node_ip statuses).count node_ip ≤ 1 ↔
      (l.count node_ip ≤ 1 ∨ ∃ s ∈ statuses, s ≠ Status.Ready) :=
  count_reconcileCycles_iff node_ip statuses l

/-! ## The store -/

/-- C7, evaluated on the code: when the read of the resource fails with the error
`msg`, `GetMemberlist` does not return an error value, it panics with `msg`. -/
theorem getMemberlist_panics_on_failed_read (msg : Error) (ns name : String) :
    (NewCRMemberlistStore (failingClient msg) ns name).GetMemberlist () =
        (Go.panic msg, ()) ∧
      ∀ r : Option Memberlist × String × Option Error,
        (NewCRMemberlistStore (failingClient msg) ns name).GetMemberlist () ≠
          (Go.ret r, ()) := by
  refine ⟨rfl, ?_⟩
  intro r h
  simp [NewCRMemberlistStore, CRMemberlistStore.GetMemberlist, failingClient] at h

/-- C8: when `GetMemberlist` returns an error, `reconcile` returns that same error
in the state the read left, and the read is the only call the store receives: no
`UpdateMemberlist` call is made. -/
theorem reconcile_fails_fast {σ : Type} (store : IMemberlistStore σ)
    (node_ip : String) (status : Status) (st st1 : σ) (log : List StoreCall)
    (ml : Option Memberlist) (v : String) (err : Error)
    (hget : store.GetMemberlist st = (Go.ret (ml, v, some err), st1)) :
    reconcile store node_ip status st = (Go.ret (some err), st1) ∧
      reconcile (recorded store) node_ip status (st, log) =
        (Go.ret (some err), (st1, log ++ [StoreCall.GetMemberlist])) := by
  constructor
  · simp [reconcile, hget]
  · simp [reconcile, recorded, hget]

/-- An instance of C8 on a store whose reads fail. -/
theorem reconcile_fails_fast_witness :
    reconcile (unreachableStore "connection refused") "10.0.0.1" Status.Ready () =
        (Go.ret (some "connection refused"), ()) ∧
      reconcile (recorded (unreachableStore "connection refused")) "10.0.0.1" Status.Ready
          ((), []) =
        (Go.ret (some "connection refused"), ((), [] ++ [StoreCall.GetMemberlist])) :=
  reconcile_fails_fast (unreachableStore "connection refused") "10.0.0.1" Status.Ready
    () () [] none "" "connection refused" rfl

/-- C10: decoding, as `GetMemberlist` does, the resource that `memberlistToCr`
builds from the sequence `l` and the version `v` returns exactly `l`, with the
same entries in the same order, and `v`; this includes the empty sequence. -/
theorem memberlist_roundtrip (l : Memberlist) (v : String) :
    decodeMemberlist (memberlistToCr l v) = Go.ret (some l, v, none) ∧
      decodeMemberlist (memberlistToCr [] v) = Go.ret (some [], v, none) :=
  ⟨decodeMemberlist_memberlistToCr l v, decodeMemberlist_memberlistToCr [] v⟩

/-- C6: `reconcile` makes one `UpdateMemberlist` call, with the version token that
`GetMemberlist` returned in the same cycle, and the resource handed to the client
carries that token as `metadata.resourceVersion`. Hence, against a client that
rejects, without effect, every write whose submitted version is not the current
one, if another writer changes the version between the read and the write of
`reconcile`, the write fails, `reconcile` returns that error, and the platform
state remains exactly what the other writer left. -/
theorem reconcile_conflict_safe {σ : Type} (c : DynamicClient σ) (ns name : String)
    (version : σ → String) (other : σ → σ)
    (hocc : ∀ (obj : Unstructured) (st : σ), obj.GetResourceVersion ≠ version st →
      ∃ e, c.Update getGvr "chroma" obj st = (Except.error e, st))
    (node_ip : String) (status : Status) (st st1 : σ) (log : List StoreCall)
    (cur : Unstructured) (l : Memberlist)
    (hget : c.Get getGvr "chroma" "worker-memberlist" st = (Except.ok cur, st1))
    (hdec : decodeMemberlist cur = Go.ret (some l, cur.GetResourceVersion, none))
    (hchg : version (other st1) ≠ cur.GetResourceVersion) :
    (reconcile (recorded (NewCRMemberlistStore c ns name).toStore) node_ip status
          (st, log)).2.2 =
        log ++ [StoreCall.GetMemberlist,
          StoreCall.UpdateMemberlist (new_memberlist l node_ip status)
            cur.GetResourceVersion] ∧
      reconcile (NewCRMemberlistStore c ns name).toStore node_ip status st =
        (match c.Update getGvr "chroma"
            (memberlistToCr (new_memberlist l node_ip status) cur.GetResourceVersion) st1 with
          | (Except.error err, st2) => (Go.ret (some err), st2)
          | (Except.ok _, st2) => (Go.ret none, st2)) ∧
      (memberlistToCr (new_memberlist l node_ip status)
          cur.GetResourceVersion).GetResourceVersion = cur.GetResourceVersion ∧
      ∃ e, reconcile (NewCRMemberlistStore (interleaved c other) ns name).toStore
          node_ip status st = (Go.ret (some e), other st1) := by
  have hg : (NewCRMemberlistStore c ns name).toStore.GetMemberlist st =
      (Go.ret (some l, cur.GetResourceVersion, none), st1) := by
    simp [CRMemberlistStore.toStore, CRMemberlistStore.GetMemberlist, NewCRMemberlistStore,
      hget, hdec]
  have hg2 : (NewCRMemberlistStore (interleaved c other) ns name).toStore.GetMemberlist st =
      (Go.ret (some l, cur.GetResourceVersion, none), other st1) := by
    simp [CRMemberlistStore.toStore, CRMemberlistStore.GetMemberlist, NewCRMemberlistStore,
      interleaved, hget, hdec]
  refine ⟨reconcile_recorded_of_get _ node_ip status st st1 log l _ hg, ?_,
    getResourceVersion_memberlistToCr _ _, ?_⟩
  · rw [reconcile_of_get _ node_ip status st st1 l _ hg]
    simp only [CRMemberlistStore.toStore, CRMemberlistStore.UpdateMemberlist,
      NewCRMemberlistStore]
  · have hne : (memberlistToCr (new_memberlist l node_ip status)
        cur.GetResourceVersion).GetResourceVersion ≠ version (other st1) := by
      rw [getResourceVersion_memberlistToCr]
      exact fun h => hchg h.symm
    obtain ⟨e, he⟩ := hocc _ _ hne
    refine ⟨e, ?_⟩
    rw [reconcile_of_get _ node_ip status st (other st1) l _ hg2]
    simp [CRMemberlistStore.toStore, CRMemberlistStore.UpdateMemberlist,
      NewCRMemberlistStore, interleaved, he]

/-- Scenario 4 of the specification for C6: the record `[10.0.0.2]` is read at
version `1`, another writer sets `[10.0.0.2, 10.0.0.3]`, and the write of
`[10.0.0.2, 10.0.0.1]` based on version `1` fails; the record stays what the other
writer set. -/
theorem reconcile_conflict_safe_witness :
    otherWriter ["10.0.0.2", "10.0.0.3"]
        { members := Value.slice [Value.map [("url", Value.str "10.0.0.2")]],
          resourceVersion := "1" } =
      { members := Value.slice [Value.map [("url", Value.str "10.0.0.2")],
          Value.map [("url", Value.str "10.0.0.3")]],
        resourceVersion := "1+" } ∧
    ∃ e, reconcile
        (NewCRMemberlistStore
          (interleaved platformClient (otherWriter ["10.0.0.2", "10.0.0.3"]))
          "chroma" "worker-memberlist").toStore
        "10.0.0.1" Status.Ready
        { members := Value.slice [Value.map [("url", Value.str "10.0.0.2")]],
          resourceVersion := "1" } =
      (Go.ret (some e),
        otherWriter ["10.0.0.2", "10.0.0.3"]
          { members := Value.slice [Value.map [("url", Value.str "10.0.0.2")]],
            resourceVersion := "1" }) :=
  ⟨rfl,
    (reconcile_conflict_safe platformClient "chroma" "worker-memberlist"
      Platform.resourceVersion (otherWriter ["10.0.0.2", "10.0.0.3"])
      platformClient_conditional "10.0.0.1" Status.Ready
      { members := Value.slice [Value.map [("url", Value.str "10.0.0.2")]],
        resourceVersion := "1" }
      { members := Value.slice [Value.map [("url", Value.str "10.0.0.2")]],
        resourceVersion := "1" }
      [] _ ["10.0.0.2"] rfl rfl (by decide)).2.2.2⟩

/-! ## The worker loop -/

/-- The worker over the store of the repository, when the read of the resource
fails: the panic of `GetMemberlist` leaves `reconcile` and `run`, before the
dequeued identity is marked done and with the later identities still pending. -/
theorem run_panics_on_failed_read :
    MemberlistManager.run
        { workqueue := scriptedQueue, nodeWatcher := constantWatcher Status.Ready,
          memberlistStore :=
            (NewCRMemberlistStore (failingClient "connection refused")
              "chroma" "worker-memberlist").toStore }
        4 ({ pending := ["a", "b", "c"], done := [] }, ()) =
      some (Go.panic "connection refused", ({ pending := ["b", "c"], done := [] }, ())) := by
  decide

/-- C9: each worker cycle is isolated. For any queue, watcher and store, an
iteration that dequeued an identity marks it done once and goes on to the next
dequeue, both when the status query returns an error and when `reconcile`
returns, a nil error or an error; an iteration whose dequeue reports shutdown
ends the loop, and the loop never ends normally in another way. So on a queue
that hands out `keys` and then reports shutdown, if the calls of each cycle
return, the loop is still running after `keys.length` iterations or fewer, and
with more fuel it ends having marked done exactly `keys`, each once and in order,
and having run the cycle of every identity in turn. -/
theorem run_cycles_isolated {σ : Type} (nodeWatcher : IWatcher σ)
    (memberlistStore : IMemberlistStore σ) :
    (∀ (κ : Type) (queue : RateLimitingInterface κ) (q q1 : κ) (st st1 : σ) (key : String)
        (status : Status) (err : Error) (fuel : Nat),
        queue.Get q = ((key, false), q1) →
        nodeWatcher.GetStatus key st = (Go.ret (status, some err), st1) →
          MemberlistManager.run
              { workqueue := queue, nodeWatcher := nodeWatcher,
                memberlistStore := memberlistStore } (fuel + 1) (q, st) =
            MemberlistManager.run
              { workqueue := queue, nodeWatcher := nodeWatcher,
                memberlistStore := memberlistStore } fuel (queue.Done key q1, st1)) ∧
      (∀ (κ : Type) (queue : RateLimitingInterface κ) (q q1 : κ) (st st1 st2 : σ)
        (key : String) (status : Status) (r : Option Error) (fuel : Nat),
        queue.Get q = ((key, false), q1) →
        nodeWatcher.GetStatus key st = (Go.ret (status, none), st1) →
        reconcile memberlistStore key status st1 = (Go.ret r, st2) →
          MemberlistManager.run
              { workqueue := queue, nodeWatcher := nodeWatcher,
                memberlistStore := memberlistStore } (fuel + 1) (q, st) =
            MemberlistManager.run
              { workqueue := queue, nodeWatcher := nodeWatcher,
                memberlistStore := memberlistStore } fuel (queue.Done key q1, st2)) ∧
      (∀ (κ : Type) (queue : RateLimitingInterface κ) (q q1 : κ) (st : σ) (key : String)
        (fuel : Nat),
        queue.Get q = ((key, true), q1) →
          MemberlistManager.run
              { workqueue := queue, nodeWatcher := nodeWatcher,
                memberlistStore := memberlistStore } (fuel + 1) (q, st) =
            some (Go.ret (), (q1, st))) ∧
      (∀ (κ : Type) (queue : RateLimitingInterface κ) (q q2 : κ) (st st2 : σ) (fuel : Nat),
        MemberlistManager.run
            { workqueue := queue, nodeWatcher := nodeWatcher,
              memberlistStore := memberlistStore } fuel (q, st) =
          some (Go.ret (), (q2, st2)) →
        ∃ q0 key, queue.Get q0 = ((key, true), q2)) ∧
      (∀ (keys done : List String) (st : σ) (fuel : Nat),
        cyclesReturn nodeWatcher memberlistStore keys st = true → fuel ≤ keys.length →
        MemberlistManager.run
            { workqueue := scriptedQueue, nodeWatcher := nodeWatcher,
              memberlistStore := memberlistStore }
            fuel ({ pending := keys, done := done }, st) = none) ∧
      (∀ (keys done : List String) (st : σ) (fuel : Nat),
        cyclesReturn nodeWatcher memberlistStore keys st = true → keys.length < fuel →
        MemberlistManager.run
            { workqueue := scriptedQueue, nodeWatcher := nodeWatcher,
              memberlistStore := memberlistStore }
            fuel ({ pending := keys, done := done }, st) =
          some (Go.ret (), ({ pending := [], done := done ++ keys },
            keys.foldl (cycle nodeWatcher memberlistStore) st))) := by
  refine ⟨?_, ?_, ?_, ?_, ?_, ?_⟩
  · intro κ queue q q1 st st1 key status err fuel hq hs
    exact run_step_status_error
      { workqueue := queue, nodeWatcher := nodeWatcher, memberlistStore := memberlistStore }
      fuel q q1 st st1 key status err hq hs
  · intro κ queue q q1 st st1 st2 key status r fuel hq hs hr
    exact run_step_reconciled
      { workqueue := queue, nodeWatcher := nodeWatcher, memberlistStore := memberlistStore }
      fuel q q1 st st1 st2 key status r hq hs hr
  · intro κ queue q q1 st key fuel hq
    exact run_step_shutdown
      { workqueue := queue, nodeWatcher := nodeWatcher, memberlistStore := memberlistStore }
      fuel q q1 st key hq
  · intro κ queue q q2 st st2 fuel h
    exact run_ret_only_at_shutdown
      { workqueue := queue, nodeWatcher := nodeWatcher, memberlistStore := memberlistStore }
      fuel q q2 st st2 h
  · intro keys done st
    exact run_scripted_running nodeWatcher memberlistStore keys done st
  · intro keys done st
    exact run_scripted_ends nodeWatcher memberlistStore keys done st

/-- An instance of C9 over the store of the repository, in which every
reconciliation fails: another writer changes the record after each read, so each
write is refused with a conflict and `reconcile` returns that error; still the
worker marks `10.0.0.1` and `10.0.0.2` done, in order, and ends at shutdown. -/
theorem run_cycles_isolated_witness :
    (reconcile
        (NewCRMemberlistStore (interleaved platformClient (otherWriter ["10.0.0.9"]))
          "chroma" "worker-memberlist").toStore
        "10.0.0.1" Status.Ready
        { members := Value.slice [], resourceVersion := "1" }).1 =
      Go.ret (some "Conflict: the object has been modified") ∧
    cyclesReturn (constantWatcher Status.Ready)
        (NewCRMemberlistStore (interleaved platformClient (otherWriter ["10.0.0.9"]))
          "chroma" "worker-memberlist").toStore
        ["10.0.0.1", "10.0.0.2"]
        { members := Value.slice [], resourceVersion := "1" } = true ∧
    MemberlistManager.run
        { workqueue := scriptedQueue, nodeWatcher := constantWatcher Status.Ready,
          memberlistStore :=
            (NewCRMemberlistStore (interleaved platformClient (otherWriter ["10.0.0.9"]))
              "chroma" "worker-memberlist").toStore }
        3 ({ pending := ["10.0.0.1", "10.0.0.2"], done := [] },
          { members := Value.slice [], resourceVersion := "1" }) =
      some (Go.ret (), ({ pending := [], done := [] ++ ["10.0.0.1", "10.0.0.2"] },
        (["10.0.0.1", "10.0.0.2"] : List String).foldl
          (cycle (constantWatcher Status.Ready)
            (NewCRMemberlistStore (interleaved platformClient (otherWriter ["10.0.0.9"]))
              "chroma" "worker-memberlist").toStore)
          { members := Value.slice [], resourceVersion := "1" })) :=
  ⟨rfl, rfl,
    (run_cycles_isolated (constantWatcher Status.Ready)
      (NewCRMemberlistStore (interleaved platformClient (otherWriter ["10.0.0.9"]))
        "chroma" "worker-memberlist").toStore).2.2.2.2.2
      ["10.0.0.1", "10.0.0.2"] [] { members := Value.slice [], resourceVersion := "1" } 3
      rfl (by decide)⟩

end memberlist_manager
